import Mathlib

/-!
Verification of the `Python_Scripts` repository: three-phase waveform
synthesis with third-harmonic injection (`3_Phase_waveforms.py`,
`3_Phase_waveforms_3rd.py`, `test.py`) and the tolerant Bode-plot CSV
ingestor (`plot_bode_plotly.py`).

Machine reals produced by the scripts are modelled by `ℚ` where the code
computes with exact rational arithmetic (the time base, parsed CSV cells)
and by `ℝ` where trigonometric functions are involved (the waveforms).
-/

namespace PythonScripts

/-! ## Waveform synthesizer: time base

Source (`3_Phase_waveforms_3rd.py`, lines 16-19; identically in
`3_Phase_waveforms.py` lines 15-18 and `test.py` lines 13-16):

  T = 1.0 / freq_hz
  N = int(cycles * samples_per_cycle)
  t = np.linspace(0, cycles * T, N, endpoint=False)

`np.linspace(0, stop, N, endpoint=False)` yields the samples
`i * (stop / N)` for `i = 0, …, N-1`.
-/

/-- Source line `N = int(cycles * samples_per_cycle)`: the sample count, as the source
computes it (no clamping to non-negative values). -/
def sampleCount (cycles samples_per_cycle : ℤ) : ℤ :=
  cycles * samples_per_cycle

/-- The time base `np.linspace(0, cycles * T, N, endpoint=False)` with
`T = 1 / freq_hz`, for the case the NumPy call succeeds (`N ≥ 0`). -/
def timeBase (freq_hz : ℚ) (cycles samples_per_cycle : ℤ) : List ℚ :=
  let T : ℚ := 1 / freq_hz
  let N : ℤ := sampleCount cycles samples_per_cycle
  (List.range N.toNat).map (fun (i : ℕ) => (i : ℚ) * (((cycles : ℚ) * T) / (N : ℚ)))

/-- Runtime errors the time-base construction can raise. -/
inductive TimeBaseError
  | zeroDivision       -- Python: `1.0 / 0.0` raises ZeroDivisionError
  | negativeSampleCount -- NumPy: `linspace` rejects a negative `num`
  deriving DecidableEq, Repr

/-- The time-base construction including its failure modes: `T = 1.0 / freq_hz`
raises `ZeroDivisionError` when `freq_hz` is zero, and
`np.linspace(0, cycles * T, N, endpoint=False)` raises `ValueError` when
`N = int(cycles * samples_per_cycle)` is negative. -/
def buildTimeBase (freq_hz : ℚ) (cycles samples_per_cycle : ℤ) :
    Except TimeBaseError (List ℚ) :=
  if freq_hz = 0 then .error .zeroDivision
  else if sampleCount cycles samples_per_cycle < 0 then .error .negativeSampleCount
  else .ok (timeBase freq_hz cycles samples_per_cycle)

theorem timeBase_length (freq_hz : ℚ) (cycles samples_per_cycle : ℤ) :
    (timeBase freq_hz cycles samples_per_cycle).length =
      (sampleCount cycles samples_per_cycle).toNat := by
  simp [timeBase]

theorem timeBase_getD (freq_hz : ℚ) (cycles samples_per_cycle : ℤ)
    (i : ℕ) (hi : i < (sampleCount cycles samples_per_cycle).toNat) :
    (timeBase freq_hz cycles samples_per_cycle).getD i 0 =
      (i : ℚ) * (((cycles : ℚ) * (1 / freq_hz)) / ((sampleCount cycles samples_per_cycle : ℤ) : ℚ)) := by
  unfold timeBase
  rw [List.getD_eq_getElem?_getD, List.getElem?_map, List.getElem?_range hi]
  rfl

/-- Claim C7: for all positive `frequency`, `cycles`, `samples_per_cycle`, the
time base has exactly `cycles × samples_per_cycle` samples, starts at `t = 0`,
steps uniformly by `(1/frequency)/samples_per_cycle`, and stays inside the
half-open interval `[0, cycles/frequency)` (the endpoint is excluded). -/
theorem claim_C7_time_base (freq_hz : ℚ) (cycles samples_per_cycle : ℤ)
    (hf : 0 < freq_hz) (hc : 0 < cycles) (hs : 0 < samples_per_cycle) :
    (((timeBase freq_hz cycles samples_per_cycle).length : ℤ) = cycles * samples_per_cycle)
    ∧ (timeBase freq_hz cycles samples_per_cycle).getD 0 0 = 0
    ∧ (∀ i : ℕ, i + 1 < (timeBase freq_hz cycles samples_per_cycle).length →
        (timeBase freq_hz cycles samples_per_cycle).getD (i+1) 0
          - (timeBase freq_hz cycles samples_per_cycle).getD i 0
          = (1 / freq_hz) / (samples_per_cycle : ℚ))
    ∧ (∀ x ∈ timeBase freq_hz cycles samples_per_cycle,
        0 ≤ x ∧ x < (cycles : ℚ) / freq_hz) := by
  have hN : 0 < sampleCount cycles samples_per_cycle := mul_pos hc hs
  have hNq : ((sampleCount cycles samples_per_cycle : ℤ) : ℚ) ≠ 0 := by
    exact_mod_cast hN.ne'
  have hcq : (cycles : ℚ) ≠ 0 := by exact_mod_cast hc.ne'
  have hsq : (samples_per_cycle : ℚ) ≠ 0 := by exact_mod_cast hs.ne'
  have hlen : (timeBase freq_hz cycles samples_per_cycle).length =
      (sampleCount cycles samples_per_cycle).toNat := timeBase_length ..
  have hstep : ((cycles : ℚ) * (1 / freq_hz)) / ((sampleCount cycles samples_per_cycle : ℤ) : ℚ)
      = (1 / freq_hz) / (samples_per_cycle : ℚ) := by
    have : ((sampleCount cycles samples_per_cycle : ℤ) : ℚ)
        = (cycles : ℚ) * (samples_per_cycle : ℚ) := by
      simp [sampleCount]
    rw [this]
    field_simp
    ring
  refine ⟨?_, ?_, ?_, ?_⟩
  · rw [hlen, Int.toNat_of_nonneg hN.le]
    rfl
  · have h0 : 0 < (sampleCount cycles samples_per_cycle).toNat := by omega
    rw [timeBase_getD _ _ _ 0 h0]
    simp
  · intro i hi
    rw [hlen] at hi
    have hi1 : i + 1 < (sampleCount cycles samples_per_cycle).toNat := hi
    have hi0 : i < (sampleCount cycles samples_per_cycle).toNat := Nat.lt_of_succ_lt hi
    rw [timeBase_getD _ _ _ _ hi1, timeBase_getD _ _ _ _ hi0, hstep]
    push_cast
    ring
  · intro x hx
    unfold timeBase at hx
    rcases List.mem_map.1 hx with ⟨i, hi, rfl⟩
    rcases List.mem_range.1 hi with hilt
    have hstep_pos : 0 < (1 / freq_hz) / (samples_per_cycle : ℚ) := by
      apply div_pos (by positivity)
      exact_mod_cast hs
    rw [hstep]
    constructor
    · positivity
    · have : (i : ℚ) < ((sampleCount cycles samples_per_cycle).toNat : ℚ) := by
        exact_mod_cast hilt
      have hNint : ((sampleCount cycles samples_per_cycle).toNat : ℤ)
          = cycles * samples_per_cycle := by
        rw [Int.toNat_of_nonneg hN.le]; rfl
      have hNcast : (((sampleCount cycles samples_per_cycle).toNat : ℕ) : ℚ)
          = (cycles : ℚ) * (samples_per_cycle : ℚ) := by
        exact_mod_cast congrArg (fun z : ℤ => (z : ℚ)) hNint
      calc (i : ℚ) * ((1 / freq_hz) / (samples_per_cycle : ℚ))
          < ((cycles : ℚ) * (samples_per_cycle : ℚ)) * ((1 / freq_hz) / (samples_per_cycle : ℚ)) := by
            apply mul_lt_mul_of_pos_right _ hstep_pos
            rw [← hNcast]
            exact this
        _ = (cycles : ℚ) / freq_hz := by field_simp; ring

/-- Claim C8 counterexample: the claim says the synthesizer does not crash for
every zero or negative frequency or cycles, with `N` computed as a non-negative
integer.  But at `freq_hz = 0` (with the source's `cycles = 2`,
`samples_per_cycle = 400`) the line `T = 1.0 / freq_hz` raises
`ZeroDivisionError`, and at `cycles = -1` the sample count
`N = int(cycles * samples_per_cycle)` is the negative integer `-400`, which
`np.linspace` rejects. -/
theorem claim_C8_counterexample :
    buildTimeBase 0 2 400 = .error .zeroDivision
    ∧ sampleCount (-1) 400 = -400
    ∧ buildTimeBase 50 (-1) 400 = .error .negativeSampleCount := by
  exact ⟨rfl, rfl, rfl⟩

/-- Claim C8, amended: building the time base succeeds exactly when the
frequency is nonzero and `cycles × samples_per_cycle` is non-negative.  Zero
frequency raises a division-by-zero error; a negative `cycles × samples_per_cycle`
is passed unclamped to the array constructor, which rejects it.  For a nonzero
(e.g. negative) frequency and a zero or positive sample count the construction
does not crash and yields the (possibly empty) sample set. -/
theorem claim_C8_time_base_errors (freq_hz : ℚ) (cycles samples_per_cycle : ℤ) :
    (freq_hz ≠ 0 → 0 ≤ sampleCount cycles samples_per_cycle →
      buildTimeBase freq_hz cycles samples_per_cycle
        = .ok (timeBase freq_hz cycles samples_per_cycle)
      ∧ (timeBase freq_hz cycles samples_per_cycle).length
          = (sampleCount cycles samples_per_cycle).toNat)
    ∧ (freq_hz = 0 ∨ sampleCount cycles samples_per_cycle < 0 →
        ∀ ts, buildTimeBase freq_hz cycles samples_per_cycle ≠ .ok ts) := by
  constructor
  · intro hf hN
    refine ⟨?_, timeBase_length ..⟩
    unfold buildTimeBase
    rw [if_neg hf, if_neg (not_lt.2 hN)]
  · intro h ts
    unfold buildTimeBase
    rcases h with h | h
    · rw [if_pos h]
      exact fun hc => by cases hc
    · rcases eq_or_ne freq_hz 0 with hf | hf
      · rw [if_pos hf]
        exact fun hc => by cases hc
      · rw [if_neg hf, if_pos h]
        exact fun hc => by cases hc

/-- Witness for the amended C8: a negative frequency with zero cycles builds
an empty time base without error. -/
theorem claim_C8_witness :
    buildTimeBase (-50) 0 400 = .ok (timeBase (-50) 0 400)
    ∧ (timeBase (-50) 0 400).length = 0 := by
  have h := (claim_C8_time_base_errors (-50) 0 400).1 (by norm_num) (by decide)
  exact ⟨h.1, h.2⟩

/-! ## Waveform synthesizer: phases, third-harmonic injection, normalization

Source (`3_Phase_waveforms_3rd.py`, lines 21-50):

  phase_angles = {"Phase A": 0.0, "Phase B": -2*pi/3, "Phase C": 2*pi/3}
  omega = 2.0 * np.pi * freq_hz
  fundamental_waves = {name: np.sin(omega * t + phi) ...}
  third_harmonic = third_harmonic_ratio * np.sin(3.0 * omega * t)
  combined_waveforms = {name: wave + third_harmonic ...}
  max_modulation = max(np.max(np.abs(wave)) for wave in combined_waveforms.values())
  scaling = phase_leg_peak_v / max_modulation if max_modulation else 1.0
  ... injected = scaling * raw_wave

The script's fixed constant block is modelled as a parameter record, so the
claims can quantify over the parameters. -/

/-- The synthesizer's parameter block (`3_Phase_waveforms_3rd.py`, lines 7-14). -/
structure SynthParams where
  freq_hz : ℚ
  phase_leg_peak_v : ℚ
  cycles : ℤ
  samples_per_cycle : ℤ
  third_harmonic_ratio : ℚ

/-- Source line `omega = 2.0 * np.pi * freq_hz`. -/
noncomputable def omega (p : SynthParams) : ℝ := 2 * Real.pi * (p.freq_hz : ℝ)

/-- The three fixed phase offsets, in the source's order A, B, C. -/
noncomputable def phase_angles : List ℝ := [0, -(2 * Real.pi / 3), 2 * Real.pi / 3]

/-- Source expression `np.sin(omega * t + phi)`, elementwise over the time base. -/
noncomputable def fundamental_wave (p : SynthParams) (phi : ℝ) : List ℝ :=
  (timeBase p.freq_hz p.cycles p.samples_per_cycle).map
    (fun tq => Real.sin (omega p * (tq : ℝ) + phi))

/-- Source line `third_harmonic = third_harmonic_ratio * np.sin(3.0 * omega * t)`. -/
noncomputable def third_harmonic (p : SynthParams) : List ℝ :=
  (timeBase p.freq_hz p.cycles p.samples_per_cycle).map
    (fun tq => (p.third_harmonic_ratio : ℝ) * Real.sin (3 * omega p * (tq : ℝ)))

/-- Source expression `wave + third_harmonic`: elementwise sum of a fundamental and the shared
zero-sequence term. -/
noncomputable def combined_waveform (p : SynthParams) (phi : ℝ) : List ℝ :=
  List.zipWith (· + ·) (fundamental_wave p phi) (third_harmonic p)

/-- Model of `np.max(np.abs(w))` for a sample list `w`.  (For the nonempty lists the
script reduces over, folding in the extra lower bound `0` is harmless because
every `|x|` is non-negative; NumPy raises on an empty array, which the
crash-sensitive claims model separately via `buildTimeBase`.) -/
noncomputable def maxAbsList (w : List ℝ) : ℝ :=
  w.foldr (fun x m => max |x| m) 0

/-- Source line `max_modulation = max(np.max(np.abs(wave)) for wave in combined_waveforms.values())`,
the Python `max` over the three phases written as nested binary maxima. -/
noncomputable def max_modulation (p : SynthParams) : ℝ :=
  max (max (maxAbsList (combined_waveform p 0))
           (maxAbsList (combined_waveform p (-(2 * Real.pi / 3)))))
      (maxAbsList (combined_waveform p (2 * Real.pi / 3)))

open Classical in
/-- Source line `scaling = phase_leg_peak_v / max_modulation if max_modulation else 1.0`. -/
noncomputable def scaling (p : SynthParams) : ℝ :=
  if max_modulation p ≠ 0 then (p.phase_leg_peak_v : ℝ) / max_modulation p else 1

/-- Source line `injected = scaling * raw_wave` (line 49): the final, scaled phase waveform. -/
noncomputable def phase_waveform (p : SynthParams) (phi : ℝ) : List ℝ :=
  (combined_waveform p phi).map (fun x => scaling p * x)

/-- Source line `voltage = phase_waveforms[pos] - phase_waveforms[neg]` (line 70),
for an ordered pair of phase offsets. -/
noncomputable def line_to_line (p : SynthParams) (phiPos phiNeg : ℝ) : List ℝ :=
  List.zipWith (fun a b => a - b) (phase_waveform p phiPos) (phase_waveform p phiNeg)

/-- Specification-side quantity for C2: the same scaling factor applied to the
fundamental alone (no third-harmonic term). -/
noncomputable def scaled_fundamental (p : SynthParams) (phi : ℝ) : List ℝ :=
  (fundamental_wave p phi).map (fun x => scaling p * x)

/-- Specification-side quantity for C2: line-to-line difference of the scaled
waveforms without the injected term. -/
noncomputable def line_to_line_noTHI (p : SynthParams) (phiPos phiNeg : ℝ) : List ℝ :=
  List.zipWith (fun a b => a - b) (scaled_fundamental p phiPos) (scaled_fundamental p phiNeg)

/-- Specification-side quantity for C1: the maximum absolute sample value
across all three scaled phases. -/
noncomputable def scaled_max_abs (p : SynthParams) : ℝ :=
  max (max (maxAbsList (phase_waveform p 0))
           (maxAbsList (phase_waveform p (-(2 * Real.pi / 3)))))
      (maxAbsList (phase_waveform p (2 * Real.pi / 3)))

theorem zipWith_map_same {α β γ δ : Type} (f : β → γ → δ) (g : α → β) (h : α → γ)
    (l : List α) :
    List.zipWith f (l.map g) (l.map h) = l.map (fun x => f (g x) (h x)) := by
  induction l with
  | nil => rfl
  | cons a l ih => simp [ih]

theorem maxAbsList_nonneg (w : List ℝ) : 0 ≤ maxAbsList w := by
  induction w with
  | nil => simp [maxAbsList]
  | cons a w ih =>
    simp only [maxAbsList, List.foldr] at *
    exact le_max_of_le_right ih

theorem abs_le_maxAbsList {x : ℝ} {w : List ℝ} (hx : x ∈ w) : |x| ≤ maxAbsList w := by
  induction w with
  | nil => cases hx
  | cons a w ih =>
    simp only [maxAbsList, List.foldr] at *
    rcases List.mem_cons.1 hx with rfl | hx
    · exact le_max_left _ _
    · exact le_max_of_le_right (ih hx)

theorem maxAbsList_map_mul (c : ℝ) (w : List ℝ) :
    maxAbsList (w.map (fun x => c * x)) = |c| * maxAbsList w := by
  induction w with
  | nil => simp [maxAbsList]
  | cons a w ih =>
    simp only [maxAbsList, List.map, List.foldr] at *
    rw [ih, abs_mul, mul_max_of_nonneg _ _ (abs_nonneg c)]

theorem line_to_line_eq_noTHI (p : SynthParams) (phiPos phiNeg : ℝ) :
    line_to_line p phiPos phiNeg = line_to_line_noTHI p phiPos phiNeg := by
  unfold line_to_line line_to_line_noTHI phase_waveform scaled_fundamental
    combined_waveform fundamental_wave third_harmonic
  rw [zipWith_map_same]
  simp only [List.map_map, zipWith_map_same]
  apply List.map_congr_left
  intro tq _
  simp only [Function.comp]
  ring

/-- Claim C2: for each of the three ordered phase pairs (A−B, B−C, C−A), the
line-to-line series computed from the injected-and-scaled phases equals the
line-to-line series computed from the same scaled phases without the
third-harmonic term: the term `k·sin(3ωt)` is added identically to every phase
and cancels exactly in each pairwise difference (so in particular it is within
any floating-point tolerance). -/
theorem claim_C2_line_to_line_cancellation (p : SynthParams) :
    line_to_line p 0 (-(2 * Real.pi / 3))
      = line_to_line_noTHI p 0 (-(2 * Real.pi / 3))
    ∧ line_to_line p (-(2 * Real.pi / 3)) (2 * Real.pi / 3)
      = line_to_line_noTHI p (-(2 * Real.pi / 3)) (2 * Real.pi / 3)
    ∧ line_to_line p (2 * Real.pi / 3) 0
      = line_to_line_noTHI p (2 * Real.pi / 3) 0 :=
  ⟨line_to_line_eq_noTHI p _ _, line_to_line_eq_noTHI p _ _, line_to_line_eq_noTHI p _ _⟩

theorem max_modulation_nonneg (p : SynthParams) : 0 ≤ max_modulation p :=
  le_max_of_le_right (maxAbsList_nonneg _)

theorem scaled_phase_bound (p : SynthParams) (hmax : max_modulation p ≠ 0)
    (hpeak : 0 < (p.phase_leg_peak_v : ℝ)) {phi : ℝ}
    (hphi : maxAbsList (combined_waveform p phi) ≤ max_modulation p) :
    ∀ x ∈ phase_waveform p phi, |x| ≤ (p.phase_leg_peak_v : ℝ) := by
  intro x hx
  have hmpos : 0 < max_modulation p := (max_modulation_nonneg p).lt_of_ne (Ne.symm hmax)
  have hscal : scaling p = (p.phase_leg_peak_v : ℝ) / max_modulation p := if_pos hmax
  rcases List.mem_map.1 hx with ⟨y, hy, rfl⟩
  have h1 : |y| ≤ max_modulation p := le_trans (abs_le_maxAbsList hy) hphi
  have hspos : 0 < scaling p := by
    rw [hscal]; exact div_pos hpeak hmpos
  calc |scaling p * y| = scaling p * |y| := by
        rw [abs_mul, abs_of_pos hspos]
    _ ≤ scaling p * max_modulation p := by
        exact mul_le_mul_of_nonneg_left h1 hspos.le
    _ = (p.phase_leg_peak_v : ℝ) := by
        rw [hscal, div_mul_cancel₀ _ hmax]

/-- Claim C1: whenever the maximum absolute value over all samples of the three
combined (fundamental + injected) waveforms is nonzero (and the requested peak
is positive, as the source's 230 V is), multiplying every phase by
`scaling = phase_leg_peak_v / max_modulation` makes the maximum absolute sample
value across the three scaled phases exactly the target peak, and no sample of
any phase exceeds it. -/
theorem claim_C1_normalization_peak (p : SynthParams)
    (hpeak : 0 < (p.phase_leg_peak_v : ℝ)) (hmax : max_modulation p ≠ 0) :
    scaled_max_abs p = (p.phase_leg_peak_v : ℝ)
    ∧ ∀ phi ∈ phase_angles, ∀ x ∈ phase_waveform p phi,
        |x| ≤ (p.phase_leg_peak_v : ℝ) := by
  have hmpos : 0 < max_modulation p := (max_modulation_nonneg p).lt_of_ne (Ne.symm hmax)
  have hscal : scaling p = (p.phase_leg_peak_v : ℝ) / max_modulation p := if_pos hmax
  have hspos : 0 < scaling p := by
    rw [hscal]; exact div_pos hpeak hmpos
  constructor
  · have habs : |scaling p| = scaling p := abs_of_pos hspos
    unfold scaled_max_abs phase_waveform
    rw [maxAbsList_map_mul, maxAbsList_map_mul, maxAbsList_map_mul, habs,
      ← mul_max_of_nonneg _ _ hspos.le, ← mul_max_of_nonneg _ _ hspos.le]
    show scaling p * max_modulation p = _
    rw [hscal, div_mul_cancel₀ _ hmax]
  · intro phi hphi
    have hphi3 : phi = 0 ∨ phi = -(2 * Real.pi / 3) ∨ phi = 2 * Real.pi / 3 := by
      simpa [phase_angles] using hphi
    rcases hphi3 with rfl | rfl | rfl
    · exact scaled_phase_bound p hmax hpeak
        (le_max_of_le_left (le_max_left _ _))
    · exact scaled_phase_bound p hmax hpeak
        (le_max_of_le_left (le_max_right _ _))
    · exact scaled_phase_bound p hmax hpeak (le_max_right _ _)

/-- Concrete witness parameters: one cycle of a 1 Hz fundamental sampled four
times, zero injection ratio, 230 V peak. -/
def pWitness : SynthParams := ⟨1, 230, 1, 4, 0⟩

theorem timeBase_pWitness : timeBase 1 1 4 = [0, 1/4, 2/4, 3/4] := by
  unfold timeBase sampleCount
  have h4 : Int.toNat 4 = 4 := rfl
  norm_num [h4, List.range_succ]

theorem maxMod_pWitness_ne : max_modulation pWitness ≠ 0 := by
  have hfuse : combined_waveform pWitness 0 =
      (timeBase 1 1 4).map (fun tq =>
        Real.sin (omega pWitness * (tq : ℝ) + 0)
          + ((0 : ℚ) : ℝ) * Real.sin (3 * omega pWitness * (tq : ℝ))) := by
    unfold combined_waveform fundamental_wave third_harmonic
    exact zipWith_map_same ..
  have hmem : Real.sin (omega pWitness * (((1:ℚ)/4 : ℚ) : ℝ) + 0)
      + ((0 : ℚ) : ℝ) * Real.sin (3 * omega pWitness * (((1:ℚ)/4 : ℚ) : ℝ))
      ∈ combined_waveform pWitness 0 := by
    rw [hfuse, timeBase_pWitness]
    exact List.mem_map_of_mem _ (by simp)
  have hval : Real.sin (omega pWitness * (((1:ℚ)/4 : ℚ) : ℝ) + 0)
      + ((0 : ℚ) : ℝ) * Real.sin (3 * omega pWitness * (((1:ℚ)/4 : ℚ) : ℝ)) = 1 := by
    have harg : omega pWitness * (((1:ℚ)/4 : ℚ) : ℝ) + 0 = Real.pi / 2 := by
      unfold omega
      show 2 * Real.pi * ((pWitness.freq_hz : ℚ) : ℝ) * _ + 0 = _
      have h1 : ((pWitness.freq_hz : ℚ) : ℝ) = 1 := by norm_num [pWitness]
      rw [h1]
      push_cast
      ring
    rw [harg, Real.sin_pi_div_two]
    push_cast
    ring
  have h1 : (1 : ℝ) ≤ maxAbsList (combined_waveform pWitness 0) := by
    have h := abs_le_maxAbsList hmem
    rw [hval] at h
    simpa using h
  have h2 : maxAbsList (combined_waveform pWitness 0) ≤ max_modulation pWitness :=
    le_max_of_le_left (le_max_left _ _)
  have : (1 : ℝ) ≤ max_modulation pWitness := le_trans h1 h2
  intro h0
  rw [h0] at this
  linarith

/-- Witness for C1 at the concrete parameters `pWitness`: both hypotheses hold
there, and the normalized peak is exactly 230. -/
theorem claim_C1_witness :
    scaled_max_abs pWitness = ((230 : ℚ) : ℝ)
    ∧ ∀ phi ∈ phase_angles, ∀ x ∈ phase_waveform pWitness phi,
        |x| ≤ ((230 : ℚ) : ℝ) :=
  claim_C1_normalization_peak pWitness (by norm_num [pWitness]) maxMod_pWitness_ne

/-- Witness for C7 at the source's own constants (50 Hz, 2 cycles, 400
samples per cycle): the hypotheses hold and the time base has 800 samples. -/
theorem claim_C7_witness :
    ((timeBase 50 2 400).length : ℤ) = 2 * 400 :=
  (claim_C7_time_base 50 2 400 (by norm_num) (by decide) (by decide)).1

/-! ## CSV ingestor (`plot_bode_plotly.py`)

Python strings are modelled as `List Char`; the library string operations the
script uses are given explicit structural models:

* `str.splitlines()` / `csv.reader` line iteration → `splitlinesPy` (splitting
  at a newline character; the claims' inputs use `\n` line endings only);
* `str.split(delim)` and `csv.reader`'s per-line field split → `splitOnChar`
  (the verified inputs use no quoting, so `csv.reader`'s quote handling does
  not arise);
* `str.strip()` → `stripPy`; `str.strip('"\x27')` → `stripQuotes`;
* `float(...)` → `pyFloat?`, an exact decimal/scientific literal parser (the
  `inf`/`nan` spellings and PEP-515 digit underscores are not modelled);
* `csv.Sniffer().sniff(sample, delimiters=",;\t ")` with the source's own
  fallback chain → `sniff_delimiter`, modelled by that fallback chain: the
  first candidate delimiter (in the source's priority order) present in the
  sample, defaulting to a comma.
-/

/-- Split a character list at every occurrence of `sep`; mirrors Python
`str.split(sep)` for a one-character separator (so `"".split(sep) = [""]`). -/
def splitOnChar (sep : Char) : List Char → List (List Char)
  | [] => [[]]
  | c :: cs =>
    let r := splitOnChar sep cs
    if c = sep then [] :: r
    else
      match r with
      | g :: gs => (c :: g) :: gs
      | [] => [[c]]

/-- Python `str.splitlines()` for `\n`-terminated text: split at newlines and
drop the final empty piece produced by a trailing newline (so `"" → []`,
`"a\n" → ["a"]`, `"a\n\nb" → ["a", "", "b"]`). -/
def splitlinesPy (cs : List Char) : List (List Char) :=
  let parts := splitOnChar (Char.ofNat 10) cs
  match parts.reverse with
  | [] :: rest => rest.reverse
  | _ => parts

/-- The whitespace characters Python `str.strip()` removes (ASCII range). -/
def isPySpace (c : Char) : Bool :=
  c = ' ' ∨ c = Char.ofNat 9 ∨ c = Char.ofNat 10 ∨ c = Char.ofNat 13
    ∨ c = Char.ofNat 11 ∨ c = Char.ofNat 12

/-- Drop characters satisfying `p` from both ends. -/
def stripWhile (p : Char → Bool) (cs : List Char) : List Char :=
  ((cs.dropWhile p).reverse.dropWhile p).reverse

/-- Python `str.strip()`. -/
def stripPy (cs : List Char) : List Char := stripWhile isPySpace cs

/-- Python `str.strip('"\x27')`: drop double and single quotes from both ends. -/
def stripQuotes (cs : List Char) : List Char :=
  stripWhile (fun c => c = Char.ofNat 34 ∨ c = Char.ofNat 39) cs

/-- A line whose `strip()` is empty (falsy in the source's tests). -/
def isBlank (cs : List Char) : Bool := (stripPy cs).isEmpty

/-- Test `first.startswith("#")` after `first = row[0].strip()`. -/
def startsWithHash : List Char → Bool
  | c :: _ => c = '#'
  | [] => false

/-- Model of `sniff_delimiter` (source lines 11-21).  The `csv.Sniffer().sniff` call is
modelled by the function's own fallback chain: the first of `, ; \t space`
present in the sample, else a comma.  (On every input this development
evaluates the sniffer at, the sample contains exactly one candidate delimiter,
where the real sniffer returns that same delimiter.) -/
def sniff_delimiter (sample : List Char) : Char :=
  match [',', ';', Char.ofNat 9, ' '].find? (fun d => sample.contains d) with
  | some d => d
  | none => ','

/-- The exact value of a decimal or scientific literal, `mant / 10 ^ dexp`. -/
structure PyFloat where
  mant : ℤ
  dexp : ℤ
  deriving DecidableEq, Repr

/-- The rational value a `PyFloat` denotes. -/
def PyFloat.toRat (v : PyFloat) : ℚ :=
  if 0 ≤ v.dexp then (v.mant : ℚ) / 10 ^ v.dexp.toNat
  else (v.mant : ℚ) * 10 ^ (-v.dexp).toNat

/-- Numeric value of a decimal digit character. -/
def digitVal (c : Char) : ℕ := c.toNat - 48

/-- Value of a digit string, most significant first. -/
def digitsToNat (ds : List Char) : ℕ := ds.foldl (fun a c => 10 * a + digitVal c) 0

/-- Parse the exponent suffix of a float literal: either nothing, or `e`/`E`
followed by an optional sign and at least one digit, consuming the whole
remainder. -/
def parseExponent : List Char → Option ℤ
  | [] => some 0
  | e :: rest =>
    if e = 'e' ∨ e = 'E' then
      match rest with
      | '+' :: ds =>
        if ds ≠ [] ∧ ds.all Char.isDigit then some ((digitsToNat ds : ℕ) : ℤ) else none
      | '-' :: ds =>
        if ds ≠ [] ∧ ds.all Char.isDigit then some (-((digitsToNat ds : ℕ) : ℤ)) else none
      | ds =>
        if ds ≠ [] ∧ ds.all Char.isDigit then some ((digitsToNat ds : ℕ) : ℤ) else none
    else none

/-- Parse an unsigned float literal `digits[.digits][exp]`, `.digits[exp]` or
`digits.[exp]`, requiring at least one mantissa digit. -/
def parsePyFloatUnsigned (cs : List Char) : Option PyFloat :=
  let ip := cs.takeWhile Char.isDigit
  let rest := cs.dropWhile Char.isDigit
  match rest with
  | '.' :: rest2 =>
    let fp := rest2.takeWhile Char.isDigit
    let rest3 := rest2.dropWhile Char.isDigit
    if ip = [] ∧ fp = [] then none
    else (parseExponent rest3).map (fun e =>
      ⟨((digitsToNat (ip ++ fp) : ℕ) : ℤ), (fp.length : ℤ) - e⟩)
  | _ =>
    if ip = [] then none
    else (parseExponent rest).map (fun e => ⟨((digitsToNat ip : ℕ) : ℤ), -e⟩)

/-- Python `float(c)` on a stripped cell: optional surrounding whitespace and
sign, then an unsigned literal.  `None` models a raised `ValueError`. -/
def pyFloat? (cs : List Char) : Option PyFloat :=
  match stripPy cs with
  | '+' :: r => parsePyFloatUnsigned r
  | '-' :: r => (parsePyFloatUnsigned r).map (fun v => ⟨-v.mant, v.dexp⟩)
  | r => parsePyFloatUnsigned r

/-- A coerced cell value: `none` models the `float('nan')` sentinel the source
stores for an empty cell. -/
abbrev NumVal := Option PyFloat

/-- Source expression `c.replace(",", ".")`: the comma-decimal retry substitution. -/
def replaceCommaDot (cs : List Char) : List Char :=
  cs.map (fun c => if c = ',' then '.' else c)

/-- Coerce one cell (source lines 68-82): strip; empty → NaN sentinel; else
`float(c)`; on failure retry with commas replaced by periods; `none` here
models the second failure, which discards the whole row. -/
def coerceCell (cell : List Char) : Option NumVal :=
  let c := stripPy cell
  if c.isEmpty then some none
  else
    match pyFloat? c with
    | some v => some (some v)
    | none =>
      match pyFloat? (replaceCommaDot c) with
      | some v => some (some v)
      | none => none

/-- The cell loop with its `break`: all cells coerce, or the row is void. -/
def coerceCells : List (List Char) → Option (List NumVal)
  | [] => some []
  | cell :: rest =>
    match coerceCell cell with
    | none => none
    | some v => (coerceCells rest).map (fun vs => v :: vs)

/-- The `numeric` list for a row (source lines 67-84): at most the first two cells,
`[]` when a cell failed both parses (the `break` reset) — such a row is
dropped by the scanner. -/
def coerceRow (row : List (List Char)) : List NumVal :=
  (coerceCells (row.take 2)).getD []

/-- Lines 86-90: grow `columns` lazily to the row's width, then append the
row's `i`-th value to column `i`. -/
def addRow : List (List NumVal) → List NumVal → List (List NumVal)
  | columns, [] => columns
  | [], v :: vs => [v] :: addRow [] vs
  | col :: columns, v :: vs => (col ++ [v]) :: addRow columns vs

/-- The row scan (source lines 52-90), with the `skipped_label` flag and the
accumulated `columns` as explicit state: skip blank rows; consume the first
non-blank row as the already-parsed label line; skip `#`-comment rows; coerce
each remaining row and accumulate it unless it coerced to nothing. -/
def scanGo (skipped : Bool) (columns : List (List NumVal)) :
    List (List (List Char)) → List (List NumVal)
  | [] => columns
  | row :: rest =>
    if row.all isBlank then scanGo skipped columns rest
    else if !skipped then scanGo true columns rest
    else if startsWithHash (stripPy (row.headD [])) then scanGo skipped columns rest
    else if (coerceRow row).isEmpty then scanGo skipped columns rest
    else scanGo skipped (addRow columns (coerceRow row)) rest

/-- The full second pass over all raw lines. -/
def scanRows (rows : List (List (List Char))) : List (List NumVal) :=
  scanGo false [] rows

/-- Ingestion failures (the three `ValueError`s of `read_labels_and_data`). -/
inductive ReadError
  | emptyInput           -- "file is empty or only whitespace"
  | missingLabels        -- "expected 2 labels (x, y) in first line"
  | insufficientColumns  -- "expected 2 numeric columns (x, y)"
  deriving DecidableEq, Repr

/-- The label tokens of the first non-blank line: split at the delimiter,
strip whitespace then quotes, keep nonempty tokens, truncate to two
(source lines 43-45). -/
def labelTokens (delimiter : Char) (labels_line : List Char) : List (List Char) :=
  (((splitOnChar delimiter labels_line).map
      (fun tok => stripQuotes (stripPy tok))).filter (fun l => ¬l.isEmpty)).take 2

/-- Source line 34, `non_empty_lines`: the substantive lines of the text. -/
def nonEmptyLines (s : List Char) : List (List Char) :=
  (splitlinesPy s).filter (fun ln => ¬isBlank ln)

/-- The delimiter the ingestor settles on for the text: sniffed from the
sample built by joining the first five non-empty lines (source lines 39-41). -/
def sniffedDelimiter (s : List Char) : Char :=
  sniff_delimiter (List.intercalate [Char.ofNat 10] ((nonEmptyLines s).take 5))

/-- The columns recovered by the second pass over all raw lines of the text
(source lines 47-90). -/
def recoveredColumns (s : List Char) : List (List NumVal) :=
  scanRows ((splitlinesPy s).map (splitOnChar (sniffedDelimiter s)))

/-- The header labels the ingestor extracts from the first non-blank line. -/
def headerLabels (s : List Char) : List (List Char) :=
  labelTokens (sniffedDelimiter s) ((nonEmptyLines s).headD [])

/-- Model of `read_labels_and_data` (source lines 24-104) on the file's text. -/
def read_labels_and_data (s : List Char) :
    Except ReadError (List (List Char) × List (List NumVal)) :=
  match nonEmptyLines s with
  | [] => .error .emptyInput
  | labels_line :: _ =>
    if (labelTokens (sniffedDelimiter s) labels_line).length < 2 then .error .missingLabels
    else if (recoveredColumns s).length < 2 then .error .insufficientColumns
    else .ok (labelTokens (sniffedDelimiter s) labels_line, (recoveredColumns s).take 2)

instance {e a : Type} [DecidableEq e] [DecidableEq a] : DecidableEq (Except e a)
  | .ok x, .ok y => decidable_of_iff (x = y) (by simp)
  | .error x, .error y => decidable_of_iff (x = y) (by simp)
  | .ok _, .error _ => isFalse (by simp)
  | .error _, .ok _ => isFalse (by simp)

/-- Claim C3: ingesting the well-formed text `"f,mag\n10,0.5\n100,0.1\n"`
returns the labels `("f", "mag")` and exactly the two numeric columns
`[10.0, 100.0]` and `[0.5, 0.1]` (the parsed cell values denote the rationals
10, 100, 1/2 and 1/10). -/
theorem claim_C3_wellformed_ingest :
    read_labels_and_data ("f,mag\n10,0.5\n100,0.1\n".data)
      = .ok ([['f'], ['m','a','g']],
          [[some ⟨10, 0⟩, some ⟨100, 0⟩], [some ⟨5, 1⟩, some ⟨1, 1⟩]])
    ∧ PyFloat.toRat ⟨10, 0⟩ = 10 ∧ PyFloat.toRat ⟨100, 0⟩ = 100
    ∧ PyFloat.toRat ⟨5, 1⟩ = 1/2 ∧ PyFloat.toRat ⟨1, 1⟩ = 1/10 := by
  refine ⟨by decide, ?_, ?_, ?_, ?_⟩ <;> norm_num [PyFloat.toRat]

/-- Claim C9 counterexample: on `"f,mag\n10\n100,0.1\n"` the ingestor succeeds,
but the two returned columns have lengths 2 and 1: the one-cell row `10`
contributes only to the first column, and nothing equalizes column lengths. -/
theorem claim_C9_counterexample :
    read_labels_and_data ("f,mag\n10\n100,0.1\n".data)
      = .ok ([['f'], ['m','a','g']],
          [[some ⟨10, 0⟩, some ⟨100, 0⟩], [some ⟨1, 1⟩]])
    ∧ [some (⟨10, 0⟩ : PyFloat), some ⟨100, 0⟩].length
        ≠ [some (⟨1, 1⟩ : PyFloat)].length := by
  exact ⟨by decide, by decide⟩

theorem addRow_nil_eq_map (vs : List NumVal) :
    addRow [] vs = vs.map (fun v => [v]) := by
  induction vs with
  | nil => rfl
  | cons v vs ih => simp [addRow, ih]

theorem addRow_getD_zero (cols : List (List NumVal)) (v : NumVal) (vs : List NumVal) :
    ((addRow cols (v :: vs)).getD 0 []).length = (cols.getD 0 []).length + 1 := by
  cases cols <;> simp [addRow]

theorem addRow_getD_one_single (cols : List (List NumVal)) (v : NumVal) :
    (addRow cols [v]).getD 1 [] = cols.getD 1 [] := by
  cases cols with
  | nil => simp [addRow]
  | cons col cols' => simp [addRow]

theorem addRow_getD_one_pair (cols : List (List NumVal)) (v w : NumVal)
    (vs : List NumVal) :
    ((addRow cols (v :: w :: vs)).getD 1 []).length = (cols.getD 1 []).length + 1 := by
  cases cols with
  | nil =>
    rw [addRow, List.getD_cons_succ, addRow_getD_zero]
    rfl
  | cons col cols' =>
    rw [addRow, List.getD_cons_succ, List.getD_cons_succ, addRow_getD_zero]

theorem addRow_nil_right (cols : List (List NumVal)) : addRow cols [] = cols := by
  cases cols <;> rfl

theorem addRow_length_mono (cols : List (List NumVal)) (numeric : List NumVal)
    (h : ((cols.getD 1 []).length ≤ (cols.getD 0 []).length)) :
    ((addRow cols numeric).getD 1 []).length ≤ ((addRow cols numeric).getD 0 []).length := by
  match numeric with
  | [] => rw [addRow_nil_right]; exact h
  | [v] =>
    rw [addRow_getD_zero, addRow_getD_one_single]
    omega
  | v :: w :: vs =>
    rw [addRow_getD_zero, addRow_getD_one_pair]
    omega

theorem scanGo_length_mono (rows : List (List (List Char))) :
    ∀ (skipped : Bool) (cols : List (List NumVal)),
      (cols.getD 1 []).length ≤ (cols.getD 0 []).length →
      ((scanGo skipped cols rows).getD 1 []).length
        ≤ ((scanGo skipped cols rows).getD 0 []).length := by
  induction rows with
  | nil => intro _ _ h; exact h
  | cons row rest ih =>
    intro skipped cols h
    rw [scanGo]
    split
    · exact ih _ _ h
    · split
      · exact ih _ _ h
      · split
        · exact ih _ _ h
        · split
          · exact ih _ _ h
          · exact ih _ _ (addRow_length_mono _ _ h)

/-- Claim C9, amended: the ingestor returns exactly two columns, and the
second column is never longer than the first (every kept row contributes to
column 0, and to column 1 only when it yields a second coerced cell); the two
columns have EQUAL length only when every kept row yields two cells, which the
code does not enforce — a kept one-cell row leaves the second column shorter. -/
theorem claim_C9_column_lengths (s : List Char) (labels : List (List Char))
    (cols : List (List NumVal))
    (h : read_labels_and_data s = .ok (labels, cols)) :
    ∃ c0 c1, cols = [c0, c1] ∧ c1.length ≤ c0.length := by
  have hmono : ((recoveredColumns s).getD 1 []).length
      ≤ ((recoveredColumns s).getD 0 []).length := by
    unfold recoveredColumns scanRows
    exact scanGo_length_mono _ _ _ (by simp)
  unfold read_labels_and_data at h
  split at h
  · cases h
  · split at h
    · cases h
    · split at h
      · cases h
      · rename_i hcols
        rw [Except.ok.injEq, Prod.mk.injEq] at h
        obtain ⟨-, hc⟩ := h
        have hcols2 : 2 ≤ (recoveredColumns s).length := by omega
        rcases hrc : recoveredColumns s with _ | ⟨c0, _ | ⟨c1, rest⟩⟩
        · rw [hrc] at hcols2; simp at hcols2
        · rw [hrc] at hcols2; simp at hcols2
        · rw [hrc] at hc hmono
          refine ⟨c0, c1, ?_, ?_⟩
          · rw [← hc]; rfl
          · simpa using hmono

/-- Witness for the amended C9 at the counterexample input: the parse succeeds
and the second column (length 1) is no longer than the first (length 2). -/
theorem claim_C9_witness :
    ∃ c0 c1, ([[some (⟨10, 0⟩ : PyFloat), some ⟨100, 0⟩], [some ⟨1, 1⟩]]
        : List (List NumVal)) = [c0, c1] ∧ c1.length ≤ c0.length :=
  claim_C9_column_lengths ("f,mag\n10\n100,0.1\n".data) [['f'], ['m','a','g']]
    [[some ⟨10, 0⟩, some ⟨100, 0⟩], [some ⟨1, 1⟩]] (by decide)

/-- Claim C4: the ingestor fails with `emptyInput` exactly on inputs with no
non-whitespace line; with `missingLabels` exactly when fewer than two
non-empty header tokens remain after trimming; with `insufficientColumns`
exactly when (the header being adequate) fewer than two numeric columns are
recovered from the row scan; and on every other input it returns a
`(labels, columns)` result. -/
theorem claim_C4_error_conditions (s : List Char) :
    (read_labels_and_data s = .error .emptyInput ↔ nonEmptyLines s = [])
    ∧ (read_labels_and_data s = .error .missingLabels
        ↔ nonEmptyLines s ≠ [] ∧ (headerLabels s).length < 2)
    ∧ (read_labels_and_data s = .error .insufficientColumns
        ↔ nonEmptyLines s ≠ [] ∧ 2 ≤ (headerLabels s).length
            ∧ (recoveredColumns s).length < 2)
    ∧ ((∃ labels cols, read_labels_and_data s = .ok (labels, cols))
        ↔ nonEmptyLines s ≠ [] ∧ 2 ≤ (headerLabels s).length
            ∧ 2 ≤ (recoveredColumns s).length) := by
  rcases hne : nonEmptyLines s with _ | ⟨l0, rest⟩
  · have hr : read_labels_and_data s = .error .emptyInput := by
      unfold read_labels_and_data; rw [hne]
    refine ⟨?_, ?_, ?_, ?_⟩ <;> simp [hr, hne]
  · have hlab : headerLabels s = labelTokens (sniffedDelimiter s) l0 := by
      unfold headerLabels; rw [hne]; rfl
    have hr : read_labels_and_data s =
        (if (labelTokens (sniffedDelimiter s) l0).length < 2
          then .error .missingLabels
          else if (recoveredColumns s).length < 2
            then .error .insufficientColumns
            else .ok (labelTokens (sniffedDelimiter s) l0, (recoveredColumns s).take 2)) := by
      unfold read_labels_and_data; rw [hne]
    by_cases h1 : (labelTokens (sniffedDelimiter s) l0).length < 2
    · rw [if_pos h1] at hr
      refine ⟨?_, ?_, ?_, ?_⟩ <;> simp [hr, hne, hlab] <;> omega
    · by_cases h2 : (recoveredColumns s).length < 2
      · rw [if_neg h1, if_pos h2] at hr
        refine ⟨?_, ?_, ?_, ?_⟩ <;> simp [hr, hne, hlab] <;> omega
      · rw [if_neg h1, if_neg h2] at hr
        refine ⟨?_, ?_, ?_, ?_⟩ <;> simp [hr, hne, hlab] <;> omega

/-- Claim C5: per-row coercion takes at most the first two cells; a trimmed
empty cell yields the NaN sentinel; a non-empty cell whose first numeric parse
fails is retried with commas replaced by periods (keeping the row only if the
retry succeeds); and a row that coerces to nothing is dropped whole — the
scanner's columns are untouched by it and scanning continues with the rest. -/
theorem claim_C5_row_coercion :
    (∀ row : List (List Char), coerceRow row = coerceRow (row.take 2))
    ∧ (∀ cell : List Char, (stripPy cell).isEmpty = true → coerceCell cell = some none)
    ∧ (∀ cell : List Char, (stripPy cell).isEmpty = false →
        pyFloat? (stripPy cell) = none →
        coerceCell cell
          = (pyFloat? (replaceCommaDot (stripPy cell))).map (fun v => some v))
    ∧ (∀ (cols : List (List NumVal)) (row : List (List Char))
          (rest : List (List (List Char))),
        row.all isBlank = false →
        startsWithHash (stripPy (row.headD [])) = false →
        coerceRow row = [] →
        scanGo true cols (row :: rest) = scanGo true cols rest) := by
  refine ⟨?_, ?_, ?_, ?_⟩
  · intro row
    unfold coerceRow
    simp [List.take_take]
  · intro cell h
    unfold coerceCell
    rw [if_pos h]
  · intro cell h hfail
    unfold coerceCell
    rw [if_neg (by simp [h]), hfail]
    cases pyFloat? (replaceCommaDot (stripPy cell)) <;> rfl
  · intro cols row rest hblank hhash hvoid
    rw [scanGo, if_neg (by simp [hblank]), if_neg (by simp), if_neg (by simpa using hhash),
      if_pos (by simp [hvoid])]

/-- Witness for C5 at concrete cells and rows: a blank cell coerces to the NaN
sentinel, the comma-decimal cell `"0,5"` is recovered by the retry, and the
unparseable row `["1", "x"]` is dropped without touching the columns. -/
theorem claim_C5_witness :
    coerceRow [['1'], ['2'], ['3']] = coerceRow [['1'], ['2']]
    ∧ coerceCell [' '] = some none
    ∧ coerceCell ['0', ',', '5']
        = (pyFloat? (replaceCommaDot (stripPy ['0', ',', '5']))).map (fun v => some v)
    ∧ scanGo true [[some ⟨7, 0⟩]] [[['1'], ['x']], [['2'], ['3']]]
        = scanGo true [[some ⟨7, 0⟩]] [[['2'], ['3']]] :=
  ⟨claim_C5_row_coercion.1 [['1'], ['2'], ['3']],
   claim_C5_row_coercion.2.1 [' '] (by decide),
   claim_C5_row_coercion.2.2.1 ['0', ',', '5'] (by decide) (by decide),
   claim_C5_row_coercion.2.2.2 [[some ⟨7, 0⟩]] [['1'], ['x']] [[['2'], ['3']]]
     (by decide) (by decide) (by decide)⟩

/-- Claim C10: the scanner consumes the first non-blank row as the (already
parsed) header before the comment test — even a row whose first cell starts
with `#` is consumed as the header, contributes no data, and its tokens become
the labels; the `#`-comment skip applies only to rows seen after the header.
Concretely, `"#f,mag\n1,2\n#c,9\n3,4\n"` yields labels `("#f", "mag")`, with
the post-header comment row `#c,9` skipped. -/
theorem claim_C10_header_consumed :
    (∀ (cols : List (List NumVal)) (row : List (List Char))
        (rest : List (List (List Char))),
      row.all isBlank = false →
      scanGo false cols (row :: rest) = scanGo true cols rest)
    ∧ (∀ (cols : List (List NumVal)) (row : List (List Char))
        (rest : List (List (List Char))),
      row.all isBlank = false →
      startsWithHash (stripPy (row.headD [])) = true →
      scanGo true cols (row :: rest) = scanGo true cols rest)
    ∧ read_labels_and_data ("#f,mag\n1,2\n#c,9\n3,4\n".data)
        = .ok ([['#', 'f'], ['m', 'a', 'g']],
            [[some ⟨1, 0⟩, some ⟨3, 0⟩], [some ⟨2, 0⟩, some ⟨4, 0⟩]]) := by
  refine ⟨?_, ?_, by decide⟩
  · intro cols row rest hblank
    rw [scanGo, if_neg (by simp [hblank]), if_pos (by simp)]
  · intro cols row rest hblank hhash
    rw [scanGo, if_neg (by simp [hblank]), if_neg (by simp), if_pos (by simpa using hhash)]

/-- Witness for C10: the `#`-leading row `#f,mag` is consumed as the header by
the first scan step, and a `#`-leading row after the header is skipped. -/
theorem claim_C10_witness :
    scanGo false [] [[['#', 'f'], ['m','a','g']], [['1'], ['2']]]
      = scanGo true [] [[['1'], ['2']]]
    ∧ scanGo true [[some ⟨1, 0⟩]] [[['#', 'c']], [['3'], ['4']]]
      = scanGo true [[some ⟨1, 0⟩]] [[['3'], ['4']]] :=
  ⟨claim_C10_header_consumed.1 [] [['#', 'f'], ['m','a','g']] [[['1'], ['2']]] (by decide),
   claim_C10_header_consumed.2.1 [[some ⟨1, 0⟩]] [['#', 'c']] [[['3'], ['4']]]
     (by decide) (by decide)⟩

/-! ## Overlay aggregator (`plot_overlay`, source lines 136-174)

Candidate files are modelled as `(stem, contents)` pairs; the figure the
source accumulates into is modelled by the state the source threads through
its loop: the adopted axis titles, the added traces (in order), the reported
skips, and the `added` counter. -/

/-- The loop state of `plot_overlay`. -/
structure OverlayState where
  x_title : Option (List Char)
  y_title : Option (List Char)
  traces : List (List Char × (List NumVal × List NumVal))
  skipped : List (List Char)
  added : ℕ
  deriving DecidableEq, Repr

/-- One iteration of the `for fp in csv_files` loop (source lines 144-153):
try the ingestor; on failure report and skip; on success adopt titles from the
first success and append the trace. -/
def plot_overlay_step (st : OverlayState) (file : List Char × List Char) :
    OverlayState :=
  match read_labels_and_data file.2 with
  | .error _ => { st with skipped := st.skipped ++ [file.1] }
  | .ok (labels, cols) =>
    let st' :=
      if st.x_title = none ∧ 2 ≤ labels.length then
        { st with x_title := some (labels.getD 0 []),
                  y_title := some (labels.getD 1 []) }
      else st
    { st' with
        traces := st'.traces ++ [(file.1, (cols.getD 0 [], cols.getD 1 []))],
        added := st'.added + 1 }

/-- The batch-level failure (`RuntimeError("No valid CSV files to plot.")`). -/
inductive OverlayError
  | noUsableInput
  deriving DecidableEq, Repr

/-- The initial loop state (no titles, no traces, nothing skipped). -/
def initOverlay : OverlayState := ⟨none, none, [], [], 0⟩

/-- Model of `plot_overlay` (source lines 136-156): fold the loop over the candidate
files and fail iff nothing was added. -/
def plot_overlay (files : List (List Char × List Char)) :
    Except OverlayError OverlayState :=
  if (files.foldl plot_overlay_step initOverlay).added = 0 then
    .error .noUsableInput
  else .ok (files.foldl plot_overlay_step initOverlay)

/-- Specification-side: does a candidate file parse successfully? -/
def parseOk (f : List Char × List Char) : Bool :=
  match read_labels_and_data f.2 with
  | .ok _ => true
  | .error _ => false

/-- Specification-side: the trace a successfully parsed candidate contributes. -/
def okTrace (f : List Char × List Char) :
    Option (List Char × (List NumVal × List NumVal)) :=
  match read_labels_and_data f.2 with
  | .ok (_, cols) => some (f.1, (cols.getD 0 [], cols.getD 1 []))
  | .error _ => none

/-- Specification-side: the labels of the first successfully parsed candidate. -/
def firstOkLabels (files : List (List Char × List Char)) :
    Option (List (List Char)) :=
  files.findSome? (fun f =>
    match read_labels_and_data f.2 with
    | .ok (labels, _) => some labels
    | .error _ => none)

theorem labelTokens_length_le (d : Char) (l : List Char) :
    (labelTokens d l).length ≤ 2 := by
  unfold labelTokens
  rw [List.length_take]
  exact min_le_left _ _

theorem read_ok_labels_length {s : List Char} {labels : List (List Char)}
    {cols : List (List NumVal)}
    (h : read_labels_and_data s = .ok (labels, cols)) : labels.length = 2 := by
  unfold read_labels_and_data at h
  split at h
  · cases h
  · rename_i l0 rest0 heq0
    split at h
    · cases h
    · rename_i hlab
      split at h
      · cases h
      · rw [Except.ok.injEq, Prod.mk.injEq] at h
        obtain ⟨hl, -⟩ := h
        have hle := labelTokens_length_le (sniffedDelimiter s) l0
        rw [← hl]
        omega

theorem overlay_foldl_added (files : List (List Char × List Char)) :
    ∀ st : OverlayState,
      (files.foldl plot_overlay_step st).added = st.added + files.countP parseOk := by
  induction files with
  | nil => intro st; simp
  | cons f fs ih =>
    intro st
    rw [List.foldl_cons, ih, List.countP_cons]
    cases hr : read_labels_and_data f.2 with
    | error e =>
      simp [plot_overlay_step, hr, parseOk]
    | ok r =>
      obtain ⟨labels, cols⟩ := r
      simp only [plot_overlay_step, hr, parseOk]
      split <;> simp <;> omega

theorem overlay_foldl_skipped (files : List (List Char × List Char)) :
    ∀ st : OverlayState,
      (files.foldl plot_overlay_step st).skipped
        = st.skipped ++ (files.filter (fun f => !parseOk f)).map Prod.fst := by
  induction files with
  | nil => intro st; simp
  | cons f fs ih =>
    intro st
    rw [List.foldl_cons, ih, List.filter_cons]
    cases hr : read_labels_and_data f.2 with
    | error e =>
      simp [plot_overlay_step, hr, parseOk]
    | ok r =>
      obtain ⟨labels, cols⟩ := r
      simp only [plot_overlay_step, hr, parseOk]
      split <;> simp

theorem overlay_foldl_traces (files : List (List Char × List Char)) :
    ∀ st : OverlayState,
      (files.foldl plot_overlay_step st).traces
        = st.traces ++ files.filterMap okTrace := by
  induction files with
  | nil => intro st; simp
  | cons f fs ih =>
    intro st
    rw [List.foldl_cons, ih, List.filterMap_cons]
    cases hr : read_labels_and_data f.2 with
    | error e =>
      simp [plot_overlay_step, hr, okTrace]
    | ok r =>
      obtain ⟨labels, cols⟩ := r
      simp only [plot_overlay_step, hr, okTrace]
      split <;> simp

theorem overlay_foldl_titles_frozen (files : List (List Char × List Char)) :
    ∀ st : OverlayState, st.x_title ≠ none →
      (files.foldl plot_overlay_step st).x_title = st.x_title
      ∧ (files.foldl plot_overlay_step st).y_title = st.y_title := by
  induction files with
  | nil => intro st _; exact ⟨rfl, rfl⟩
  | cons f fs ih =>
    intro st hx
    rw [List.foldl_cons]
    cases hr : read_labels_and_data f.2 with
    | error e =>
      have := ih { st with skipped := st.skipped ++ [f.1] } hx
      simpa [plot_overlay_step, hr] using this
    | ok r =>
      obtain ⟨labels, cols⟩ := r
      have hguard : ¬(st.x_title = none ∧ 2 ≤ labels.length) := by
        intro hc; exact hx hc.1
      have := ih { st with
          traces := st.traces ++ [(f.1, (cols.getD 0 [], cols.getD 1 []))],
          added := st.added + 1 } hx
      simpa [plot_overlay_step, hr, if_neg hguard] using this

theorem overlay_foldl_x_title (files : List (List Char × List Char)) :
    ∀ st : OverlayState,
      (files.foldl plot_overlay_step st).x_title
        = st.x_title.or ((firstOkLabels files).map (fun l => l.getD 0 [])) := by
  induction files with
  | nil => intro st; simp [firstOkLabels]
  | cons f fs ih =>
    intro st
    rw [List.foldl_cons]
    cases hr : read_labels_and_data f.2 with
    | error e =>
      rw [show firstOkLabels (f :: fs) = firstOkLabels fs by
        simp [firstOkLabels, List.findSome?_cons, hr]]
      have := ih { st with skipped := st.skipped ++ [f.1] }
      simpa [plot_overlay_step, hr] using this
    | ok r =>
      obtain ⟨labels, cols⟩ := r
      have hfirst : firstOkLabels (f :: fs) = some labels := by
        simp [firstOkLabels, List.findSome?_cons, hr]
      have hlen : labels.length = 2 := read_ok_labels_length hr
      rw [hfirst]
      cases hx : st.x_title with
      | none =>
        have hguard : st.x_title = none ∧ 2 ≤ labels.length := ⟨hx, by omega⟩
        have hfrozen := overlay_foldl_titles_frozen fs
          { st with
              x_title := some (labels.getD 0 []), y_title := some (labels.getD 1 []),
              traces := st.traces ++ [(f.1, (cols.getD 0 [], cols.getD 1 []))],
              added := st.added + 1 } (by simp)
        simp only [plot_overlay_step, hr, if_pos hguard]
        rw [hfrozen.1]
        simp [hx]
      | some t =>
        have hguard : ¬(st.x_title = none ∧ 2 ≤ labels.length) := by
          intro hc; rw [hx] at hc; cases hc.1
        have hfrozen := overlay_foldl_titles_frozen fs
          { st with
              traces := st.traces ++ [(f.1, (cols.getD 0 [], cols.getD 1 []))],
              added := st.added + 1 } (by simp [hx])
        simp only [plot_overlay_step, hr, if_neg hguard]
        rw [hfrozen.1]
        simp [hx]

theorem overlay_foldl_y_title (files : List (List Char × List Char)) :
    ∀ st : OverlayState, st.x_title = none →
      (files.foldl plot_overlay_step st).y_title
        = ((firstOkLabels files).map (fun l => some (l.getD 1 []))).getD st.y_title := by
  induction files with
  | nil => intro st _; simp [firstOkLabels]
  | cons f fs ih =>
    intro st hx
    rw [List.foldl_cons]
    cases hr : read_labels_and_data f.2 with
    | error e =>
      rw [show firstOkLabels (f :: fs) = firstOkLabels fs by
        simp [firstOkLabels, List.findSome?_cons, hr]]
      have := ih { st with skipped := st.skipped ++ [f.1] } hx
      simpa [plot_overlay_step, hr] using this
    | ok r =>
      obtain ⟨labels, cols⟩ := r
      have hfirst : firstOkLabels (f :: fs) = some labels := by
        simp [firstOkLabels, List.findSome?_cons, hr]
      have hlen : labels.length = 2 := read_ok_labels_length hr
      have hguard : st.x_title = none ∧ 2 ≤ labels.length := ⟨hx, by omega⟩
      have hfrozen := overlay_foldl_titles_frozen fs
        { st with
            x_title := some (labels.getD 0 []), y_title := some (labels.getD 1 []),
            traces := st.traces ++ [(f.1, (cols.getD 0 [], cols.getD 1 []))],
            added := st.added + 1 } (by simp)
      rw [hfirst]
      simp only [plot_overlay_step, hr, if_pos hguard]
      rw [hfrozen.2]
      simp

theorem parseOk_false_iff (f : List Char × List Char) :
    parseOk f = false ↔ ¬∃ r, read_labels_and_data f.2 = .ok r := by
  unfold parseOk
  cases h : read_labels_and_data f.2 with
  | ok r => simp
  | error e => simp

/-- Claim C6: the overlay aggregator tries each candidate file independently:
it fails with `noUsableInput` exactly when no file parses; on success, the
skipped list reports exactly the failing files, the traces are exactly the
successfully parsed series in input order, and the axis titles are the labels
of the first successfully parsed file (never replaced by a later file's). -/
theorem claim_C6_overlay_aggregation (files : List (List Char × List Char)) :
    (plot_overlay files = .error .noUsableInput
      ↔ ∀ f ∈ files, ¬∃ r, read_labels_and_data f.2 = .ok r)
    ∧ (∀ st : OverlayState, plot_overlay files = .ok st →
        st.traces = files.filterMap okTrace
        ∧ st.skipped = (files.filter (fun f => !parseOk f)).map Prod.fst
        ∧ st.x_title = (firstOkLabels files).map (fun l => l.getD 0 [])
        ∧ st.y_title = (firstOkLabels files).map (fun l => l.getD 1 [])) := by
  have hadded := overlay_foldl_added files initOverlay
  have hcnt : (files.foldl plot_overlay_step initOverlay).added
      = files.countP parseOk := by
    rw [hadded]
    simp [initOverlay]
  constructor
  · constructor
    · intro he f hf
      unfold plot_overlay at he
      split at he
      · rename_i hz
        rw [hcnt] at hz
        have hp := List.countP_eq_zero.mp hz f hf
        have hfalse : parseOk f = false := by simpa using hp
        exact (parseOk_false_iff f).mp hfalse
      · cases he
    · intro hall
      have hc0 : (files.foldl plot_overlay_step initOverlay).added = 0 := by
        rw [hcnt, List.countP_eq_zero]
        intro f hf
        have hfalse : parseOk f = false := (parseOk_false_iff f).mpr (hall f hf)
        simp [hfalse]
      unfold plot_overlay
      rw [if_pos hc0]
  · intro st hok
    unfold plot_overlay at hok
    split at hok
    · cases hok
    · rename_i hnz
      rw [Except.ok.injEq] at hok
      subst hok
      have hfo : ∃ l, firstOkLabels files = some l := by
        rcases hx : firstOkLabels files with _ | l
        · exfalso
          apply hnz
          rw [hcnt, List.countP_eq_zero]
          intro f hf
          have hnone := List.findSome?_eq_none_iff.mp hx f hf
          unfold parseOk
          revert hnone
          cases hrf : read_labels_and_data f.2 with
          | ok r =>
            obtain ⟨labels, cols⟩ := r
            intro hc
            cases hc
          | error e =>
            intro _
            simp
        · exact ⟨l, rfl⟩
      obtain ⟨l, hl⟩ := hfo
      refine ⟨?_, ?_, ?_, ?_⟩
      · rw [overlay_foldl_traces]
        rfl
      · rw [overlay_foldl_skipped]
        rfl
      · rw [overlay_foldl_x_title]
        simp [initOverlay, Option.none_or]
      · rw [overlay_foldl_y_title files initOverlay rfl, hl]
        rfl

/-- Witness for C6 at a concrete batch of two candidates (a malformed file,
then a well-formed one): the batch succeeds, the malformed file is reported
as skipped, only the good file's series is added, and its labels are adopted. -/
theorem claim_C6_witness :
    (⟨some ['f'], some ['m','a','g'],
        [("good".data, ([some ⟨1, 0⟩], [some ⟨2, 0⟩]))],
        ["bad".data], 1⟩ : OverlayState).traces
      = [("bad".data, "x".data), ("good".data, "f,mag\n1,2\n".data)].filterMap okTrace
    ∧ (⟨some ['f'], some ['m','a','g'],
        [("good".data, ([some ⟨1, 0⟩], [some ⟨2, 0⟩]))],
        ["bad".data], 1⟩ : OverlayState).skipped
      = ([("bad".data, "x".data), ("good".data, "f,mag\n1,2\n".data)].filter
          (fun f => !parseOk f)).map Prod.fst
    ∧ (⟨some ['f'], some ['m','a','g'],
        [("good".data, ([some ⟨1, 0⟩], [some ⟨2, 0⟩]))],
        ["bad".data], 1⟩ : OverlayState).x_title
      = (firstOkLabels [("bad".data, "x".data), ("good".data, "f,mag\n1,2\n".data)]).map
          (fun l => l.getD 0 [])
    ∧ (⟨some ['f'], some ['m','a','g'],
        [("good".data, ([some ⟨1, 0⟩], [some ⟨2, 0⟩]))],
        ["bad".data], 1⟩ : OverlayState).y_title
      = (firstOkLabels [("bad".data, "x".data), ("good".data, "f,mag\n1,2\n".data)]).map
          (fun l => l.getD 1 []) :=
  (claim_C6_overlay_aggregation
      [("bad".data, "x".data), ("good".data, "f,mag\n1,2\n".data)]).2
    ⟨some ['f'], some ['m','a','g'],
      [("good".data, ([some ⟨1, 0⟩], [some ⟨2, 0⟩]))],
      ["bad".data], 1⟩ (by decide)

/-- Witness for C4 at concrete inputs: an all-whitespace file, a one-label
file, a file whose rows all fail coercion, and a well-formed file hit the
four cases of the characterization. -/
theorem claim_C4_witness :
    read_labels_and_data ("  \n\n".data) = .error .emptyInput
    ∧ read_labels_and_data ("x\n1,2\n".data) = .error .missingLabels
    ∧ read_labels_and_data ("f,mag\nabc,def\n".data) = .error .insufficientColumns
    ∧ ∃ labels cols, read_labels_and_data ("f,mag\n1,2\n".data) = .ok (labels, cols) :=
  ⟨(claim_C4_error_conditions ("  \n\n".data)).1.mpr (by decide),
   (claim_C4_error_conditions ("x\n1,2\n".data)).2.1.mpr (by decide),
   (claim_C4_error_conditions ("f,mag\nabc,def\n".data)).2.2.1.mpr (by decide),
   (claim_C4_error_conditions ("f,mag\n1,2\n".data)).2.2.2.mpr (by decide)⟩
